import Mathlib

/-! Shallow embedding of the sampling-and-aggregation core of
`src/counter_script.py` (the Rigol DHO924 event counter logger).

Conventions of the embedding:
* Python floats are modelled as exact rationals: counter values, wall-clock
  times and rates all live in `ℚ`.
* The several `time.time()` calls made within one loop iteration are
  collapsed into the single time value `t` carried by the tick; timestamps
  (`datetime.now()` strings) are likewise represented by that numeric time.
* The `int(x)` truncation applied when formatting CSV cells is `pyInt`.
* Console printing (progress lines, warnings) is not modelled; the CSV rows
  and the aggregation state are.
-/

namespace CounterScript

/-- AggState collects the mutable loop variables of `main`
(`counter_script.py` lines 122–128): `last_counter`,
`interval_start_counter`, `cumulative_events`, `interval_count`,
`interval_start_time`. -/
structure AggState where
  last_counter : ℚ
  interval_start_counter : ℚ
  cumulative_events : ℚ
  interval_count : ℕ
  interval_start_time : ℚ
deriving DecidableEq

/-- Row models one data row written by `csv_writer.writerow` (lines 157–164
and 197–204): interval index, start/end timestamps, interval events, rate,
cumulative events.  `events`, `rate` and `cumulative` are kept as the exact
rational values computed by the loop; the integer cells actually printed are
`eventsCell` / `cumCell` below. -/
structure Row where
  index : ℕ
  startTime : ℚ
  endTime : ℚ
  events : ℚ
  rate : ℚ
  cumulative : ℚ
deriving DecidableEq

/-- Python `int(x)` truncates toward zero. -/
def pyInt (q : ℚ) : ℤ := if 0 ≤ q then ⌊q⌋ else ⌈q⌉

/-- The integer printed in the Events column: `int(interval_events)`. -/
def eventsCell (r : Row) : ℤ := pyInt r.events

/-- The integer printed in the Cumulative Events column:
`int(cumulative_events)`. -/
def cumCell (r : Row) : ℤ := pyInt r.cumulative

/-- Tick is one iteration of the `while True` loop: either the counter read
failed (`read_counter_value` returned `None`, lines 183–184) or it returned
value `v` with the iteration's wall-clock time `t`. -/
inductive Tick where
  | fail : Tick
  | ok (v : ℚ) (t : ℚ) : Tick

/-- stepOk is the body of the `if counter is not None:` branch
(`counter_script.py` lines 135–181): per-sample delta with rollover
substitution, cumulative update, and window close when
`elapsed >= INTERVAL_SECONDS`.  `cfg` is `INTERVAL_SECONDS`. -/
def stepOk (cfg : ℚ) (s : AggState) (v t : ℚ) : AggState × Option Row :=
  -- events_delta = counter - last_counter; if events_delta < 0: events_delta = counter
  let events_delta := if v - s.last_counter < 0 then v else v - s.last_counter
  -- cumulative_events += events_delta; last_counter = counter
  let cum := s.cumulative_events + events_delta
  -- elapsed = time.time() - interval_start_time
  let elapsed := t - s.interval_start_time
  if cfg ≤ elapsed then
    -- interval_events = counter - interval_start_counter (rollover rule again)
    let interval_events :=
      if v - s.interval_start_counter < 0 then v else v - s.interval_start_counter
    -- rate = interval_events / elapsed if elapsed > 0 else 0
    let rate := if 0 < elapsed then interval_events / elapsed else 0
    ({ last_counter := v
       interval_start_counter := v
       cumulative_events := cum
       interval_count := s.interval_count + 1
       interval_start_time := t },
     some { index := s.interval_count + 1
            startTime := s.interval_start_time
            endTime := t
            events := interval_events
            rate := rate
            cumulative := cum })
  else
    ({ s with last_counter := v, cumulative_events := cum }, none)

/-- stepTick dispatches one loop iteration: a failed read changes nothing
(lines 183–184 only print a warning), a successful read runs `stepOk`. -/
def stepTick (cfg : ℚ) (s : AggState) : Tick → AggState × Option Row
  | Tick.fail => (s, none)
  | Tick.ok v t => stepOk cfg s v t

/-- initState is the loop-variable initialisation from the seed reading
`initial_counter` at start time `t0` (lines 122–128): `last_counter =
interval_start_counter = initial_counter`, `cumulative_events = 0`,
`interval_count = 0`, `interval_start_time = t0`. -/
def initState (v0 t0 : ℚ) : AggState := ⟨v0, v0, 0, 0, t0⟩

/-- runTicks folds the sampling loop over a list of ticks, collecting the
rows written to the CSV in the order they are written. -/
def runTicks (cfg : ℚ) (s : AggState) : List Tick → AggState × List Row
  | [] => (s, [])
  | tk :: tks =>
    let p := stepTick cfg s tk
    let q := runTicks cfg p.1 tks
    (q.1, p.2.toList ++ q.2)

/-- finalizeStep is the `except KeyboardInterrupt` handler's final-interval
logic (lines 188–209): one extra counter read; if it failed, nothing is
written; otherwise `final_events = final_counter - interval_start_counter`
and a trailing row is written only when `final_events > 0`.  Note that
`cumulative_events` is not updated by the final read and no rollover
substitution is applied to `final_events`. -/
def finalizeStep (s : AggState) (finalRead : Option ℚ) (t : ℚ) : AggState × Option Row :=
  match finalRead with
  | none => (s, none)
  | some v =>
    let final_events := v - s.interval_start_counter
    if 0 < final_events then
      let elapsed := t - s.interval_start_time
      let rate := if 0 < elapsed then final_events / elapsed else 0
      ({ s with interval_count := s.interval_count + 1 },
       some { index := s.interval_count + 1
              startTime := s.interval_start_time
              endTime := t
              events := final_events
              rate := rate
              cumulative := s.cumulative_events })
    else (s, none)

/-- runMain is a whole run of the sampling loop: seed reading `v0` at time
`t0`, then the ticks, then shutdown finalization with the extra read
`finalRead` at time `tFin`.  Returns the final aggregation state and every
data row written to the CSV, in writing order. -/
def runMain (cfg v0 t0 : ℚ) (tks : List Tick) (finalRead : Option ℚ) (tFin : ℚ) :
    AggState × List Row :=
  let r := runTicks cfg (initState v0 t0) tks
  let f := finalizeStep r.1 finalRead tFin
  (f.1, r.2 ++ f.2.toList)

/-- okValues extracts the successful counter readings of a tick list, in
order. -/
def okValues : List Tick → List ℚ
  | [] => []
  | Tick.fail :: tks => okValues tks
  | Tick.ok v _ :: tks => v :: okValues tks

/-! Embedding of `ScopeConnection.query` and `read_counter_value`
(`counter_script.py` lines 40–65).  Python strings are modelled as
`List Char` (Lean's `String.trim`, `String.toUpper` and `String.split` are
not kernel-reducible, so the string operations of the source are embedded
directly on character lists). -/

/-- pyStrip models Python `str.strip()`: drop whitespace from both ends. -/
def pyStrip (l : List Char) : List Char :=
  ((l.dropWhile Char.isWhitespace).reverse.dropWhile Char.isWhitespace).reverse

/-- startsWithChars decides whether the second list starts with the first. -/
def startsWithChars : List Char → List Char → Bool
  | [], _ => true
  | _ :: _, [] => false
  | a :: as, b :: bs => a = b && startsWithChars as bs

/-- containsSeq models Python `needle in haystack` for strings: some
contiguous run of `haystack` equals `needle`. -/
def containsSeq (needle : List Char) : List Char → Bool
  | [] => needle.isEmpty
  | c :: rest => startsWithChars needle (c :: rest) || containsSeq needle rest

/-- digitsVal reads a digit list as a natural number (base 10). -/
def digitsVal (l : List Char) : ℕ :=
  l.foldl (fun a c => 10 * a + (c.toNat - 48)) 0

/-- readSign consumes an optional leading `+`/`-`, returning the sign. -/
def readSign : List Char → ℤ × List Char
  | '-' :: r => (-1, r)
  | '+' :: r => (1, r)
  | l => (1, l)

/-- readMantissa consumes `digits[.digits]`, requiring at least one digit,
and returns its rational value together with the unconsumed rest. -/
def readMantissa (l : List Char) : Option ℚ × List Char :=
  let ip := l.takeWhile Char.isDigit
  let r1 := l.dropWhile Char.isDigit
  match r1 with
  | '.' :: r2 =>
    let fp := r2.takeWhile Char.isDigit
    let r3 := r2.dropWhile Char.isDigit
    if ip.isEmpty ∧ fp.isEmpty then (none, r3)
    else (some ((digitsVal ip : ℚ) + (digitsVal fp : ℚ) / 10 ^ fp.length), r3)
  | _ => if ip.isEmpty then (none, r1) else (some (digitsVal ip), r1)

/-- pyFloat models Python `float(str)` on decimal and scientific literals
(optional sign, mantissa, optional `e`/`E` exponent), returning `none` where
Python raises `ValueError`; the `inf`/`nan`/underscore forms, which the
device never produces, are not modelled. -/
def pyFloat (l : List Char) : Option ℚ :=
  let t := pyStrip l
  let s1 := readSign t
  let m := readMantissa s1.2
  match m.1 with
  | none => none
  | some mant =>
    match m.2 with
    | [] => some ((s1.1 : ℚ) * mant)
    | e :: rest2 =>
      if e = 'e' ∨ e = 'E' then
        let s2 := readSign rest2
        if ¬ s2.2.isEmpty ∧ s2.2.all Char.isDigit then
          some ((s1.1 : ℚ) * mant * (10 : ℚ) ^ (s2.1 * (digitsVal s2.2 : ℤ)))
        else none
      else none

/-- RecvOutcome classifies what happens inside `ScopeConnection.query`
(lines 40–50): the socket read times out, some other exception is raised,
or a raw text response arrives. -/
inductive RecvOutcome where
  | timeout : RecvOutcome
  | connError : RecvOutcome
  | resp (raw : List Char) : RecvOutcome

/-- query embeds `ScopeConnection.query`: `except socket.timeout: return
None`, `except Exception: ...; return None`, otherwise
`self.sock.recv(4096).decode('utf-8').strip()`. -/
def query : RecvOutcome → Option (List Char)
  | RecvOutcome.timeout => none
  | RecvOutcome.connError => none
  | RecvOutcome.resp raw => some (pyStrip raw)

/-- upperERROR is the literal `'ERROR'` tested against the upper-cased
response. -/
def upperERROR : List Char := ['E', 'R', 'R', 'O', 'R']

/-- read_counter_value embeds `read_counter_value` (lines 57–65):
`result = scope.query(...)`; `if result and result != '' and 'ERROR' not in
result.upper():` (the first two tests are the same non-empty check, modelled
once) then `try: return float(result.split(',')[0]) except: return None`;
every failing path returns `None`. -/
def read_counter_value (o : RecvOutcome) : Option ℚ :=
  match query o with
  | none => none
  | some result =>
    if result ≠ [] ∧ containsSeq upperERROR (result.map Char.toUpper) = false then
      pyFloat (result.takeWhile (fun c => c ≠ ','))
    else none

/-! Embedding of the Recorder side: `open(OUTPUT_FILE, 'w', newline='')`
followed by header and data `writerow` calls (lines 117–119, 157–165,
197–205).  The CSV file is modelled as the list of its rows. -/

/-- CsvLine is one row of the output file: the fixed header or a data row. -/
inductive CsvLine where
  | header : CsvLine
  | data (r : Row) : CsvLine

/-- isHeaderLine tests whether a CSV line is the header row. -/
def isHeaderLine : CsvLine → Bool
  | CsvLine.header => true
  | CsvLine.data _ => false

/-- openW models `open(path, 'w')`: mode `w` truncates, so whatever the file
held before is discarded. -/
def openW (_prior : List CsvLine) : List CsvLine := []

/-- writerow models `csv_writer.writerow` (with the immediate
`csvfile.flush()`): append one row at the end of the file. -/
def writerow (f : List CsvLine) (l : CsvLine) : List CsvLine := f ++ [l]

/-- csvOutput is the file produced by a run that writes `rows`: open in mode
`w` over whatever was at the path, write the header row once, then write
each data row in order. -/
def csvOutput (prior : List CsvLine) (rows : List Row) : List CsvLine :=
  rows.foldl (fun f r => writerow f (CsvLine.data r)) (writerow (openW prior) CsvLine.header)

/-- tickOfOutcome connects the sampler to the loop: an iteration whose
`read_counter_value` call yields `None` is a failed tick, one that yields a
value is a successful tick at the iteration's time `t`. -/
def tickOfOutcome (o : RecvOutcome) (t : ℚ) : Tick :=
  match read_counter_value o with
  | none => Tick.fail
  | some v => Tick.ok v t

end CounterScript
namespace CounterScript

theorem runTicks_cons (cfg : ℚ) (s : AggState) (tk : Tick) (tks : List Tick) :
    runTicks cfg s (tk :: tks)
      = ((runTicks cfg (stepTick cfg s tk).1 tks).1,
         (stepTick cfg s tk).2.toList ++ (runTicks cfg (stepTick cfg s tk).1 tks).2) := rfl

theorem stepOk_close (cfg : ℚ) (s : AggState) (v t : ℚ)
    (hnr : ¬ v - s.last_counter < 0) (hni : ¬ v - s.interval_start_counter < 0)
    (hcl : cfg ≤ t - s.interval_start_time) :
    stepOk cfg s v t
      = ({ last_counter := v, interval_start_counter := v,
           cumulative_events := s.cumulative_events + (v - s.last_counter),
           interval_count := s.interval_count + 1, interval_start_time := t },
         some { index := s.interval_count + 1, startTime := s.interval_start_time,
                endTime := t, events := v - s.interval_start_counter,
                rate := if 0 < t - s.interval_start_time
                  then (v - s.interval_start_counter) / (t - s.interval_start_time) else 0,
                cumulative := s.cumulative_events + (v - s.last_counter) }) := by
  simp only [stepOk, if_neg hnr, if_neg hni, if_pos hcl]

theorem stepOk_open (cfg : ℚ) (s : AggState) (v t : ℚ)
    (hnr : ¬ v - s.last_counter < 0)
    (hcl : ¬ cfg ≤ t - s.interval_start_time) :
    stepOk cfg s v t
      = ({ s with
           last_counter := v
           cumulative_events := s.cumulative_events + (v - s.last_counter) }, none) := by
  simp only [stepOk, if_neg hnr, if_neg hcl]

theorem runTicks_inv (cfg : ℚ) (tks : List Tick) : ∀ (s : AggState),
    List.Chain (fun a b => a ≤ b) s.last_counter (okValues tks) →
    s.interval_start_counter ≤ s.last_counter →
    ((runTicks cfg s tks).2.map Row.events).sum
        = (runTicks cfg s tks).1.interval_start_counter - s.interval_start_counter
    ∧ (runTicks cfg s tks).1.cumulative_events
        = s.cumulative_events + ((runTicks cfg s tks).1.last_counter - s.last_counter)
    ∧ (runTicks cfg s tks).1.interval_start_counter ≤ (runTicks cfg s tks).1.last_counter
    ∧ (runTicks cfg s tks).1.last_counter = (okValues tks).getLastD s.last_counter := by
  induction tks with
  | nil =>
    intro s _ hstart
    refine ⟨?_, ?_, hstart, ?_⟩ <;> simp [runTicks, okValues]
  | cons tk tks ih =>
    intro s hchain hstart
    cases tk with
    | fail =>
      have h := ih s (by simpa [okValues] using hchain) hstart
      simpa [runTicks_cons, stepTick, okValues] using h
    | ok v t =>
      rw [okValues] at hchain
      rcases List.chain_cons.mp hchain with ⟨hv, hchain2⟩
      have hnr : ¬ v - s.last_counter < 0 := by linarith
      have hsv : s.interval_start_counter ≤ v := le_trans hstart hv
      have hni : ¬ v - s.interval_start_counter < 0 := by linarith
      by_cases hcl : cfg ≤ t - s.interval_start_time
      · rw [runTicks_cons]
        simp only [stepTick, stepOk_close cfg s v t hnr hni hcl]
        set s1 : AggState :=
          { last_counter := v, interval_start_counter := v,
            cumulative_events := s.cumulative_events + (v - s.last_counter),
            interval_count := s.interval_count + 1, interval_start_time := t } with hs1
        obtain ⟨ih1, ih2, ih3, ih4⟩ := ih s1 (by simpa [hs1] using hchain2) (by simp [hs1])
        refine ⟨?_, ?_, ih3, ?_⟩
        · simp only [Option.toList_some, List.map_append, List.sum_append, List.map_cons,
            List.map_nil, List.sum_cons, List.sum_nil]
          have h1 : s1.interval_start_counter = v := rfl
          rw [ih1, h1]
          ring
        · rw [ih2]
          have h1 : s1.cumulative_events = s.cumulative_events + (v - s.last_counter) := rfl
          have h2 : s1.last_counter = v := rfl
          rw [h1, h2]
          ring
        · rw [ih4]
          have h2 : s1.last_counter = v := rfl
          rw [h2, okValues, List.getLastD_cons]
      · rw [runTicks_cons]
        simp only [stepTick, stepOk_open cfg s v t hnr hcl]
        set s1 : AggState :=
          { s with
            last_counter := v
            cumulative_events := s.cumulative_events + (v - s.last_counter) } with hs1
        obtain ⟨ih1, ih2, ih3, ih4⟩ := ih s1 (by simpa [hs1] using hchain2) (by simpa [hs1] using hsv)
        refine ⟨?_, ?_, ih3, ?_⟩
        · simpa [hs1] using ih1
        · rw [ih2]
          have h1 : s1.cumulative_events = s.cumulative_events + (v - s.last_counter) := rfl
          have h2 : s1.last_counter = v := rfl
          rw [h1, h2]
          ring
        · rw [ih4, okValues, List.getLastD_cons]

theorem runMain_eq (cfg v0 t0 tFin : ℚ) (tks : List Tick) (fr : Option ℚ) :
    runMain cfg v0 t0 tks fr tFin
      = ((finalizeStep (runTicks cfg (initState v0 t0) tks).1 fr tFin).1,
         (runTicks cfg (initState v0 t0) tks).2
           ++ (finalizeStep (runTicks cfg (initState v0 t0) tks).1 fr tFin).2.toList) := rfl

theorem finalizeStep_none (s : AggState) (t : ℚ) : finalizeStep s none t = (s, none) := rfl

theorem finalizeStep_pos (s : AggState) (v t : ℚ) (h : 0 < v - s.interval_start_counter) :
    finalizeStep s (some v) t
      = ({ s with interval_count := s.interval_count + 1 },
         some { index := s.interval_count + 1, startTime := s.interval_start_time,
                endTime := t, events := v - s.interval_start_counter,
                rate := if 0 < t - s.interval_start_time
                  then (v - s.interval_start_counter) / (t - s.interval_start_time) else 0,
                cumulative := s.cumulative_events }) := by
  simp only [finalizeStep, if_pos h]

theorem finalizeStep_nonpos (s : AggState) (v t : ℚ) (h : ¬ 0 < v - s.interval_start_counter) :
    finalizeStep s (some v) t = (s, none) := by
  simp only [finalizeStep, if_neg h]

theorem stepOk_close_general (cfg : ℚ) (s : AggState) (v t : ℚ)
    (hcl : cfg ≤ t - s.interval_start_time) :
    stepOk cfg s v t
      = ({ last_counter := v, interval_start_counter := v,
           cumulative_events := s.cumulative_events
             + (if v - s.last_counter < 0 then v else v - s.last_counter),
           interval_count := s.interval_count + 1, interval_start_time := t },
         some { index := s.interval_count + 1, startTime := s.interval_start_time,
                endTime := t,
                events := if v - s.interval_start_counter < 0 then v
                  else v - s.interval_start_counter,
                rate := if 0 < t - s.interval_start_time
                  then (if v - s.interval_start_counter < 0 then v
                    else v - s.interval_start_counter) / (t - s.interval_start_time)
                  else 0,
                cumulative := s.cumulative_events
                  + (if v - s.last_counter < 0 then v else v - s.last_counter) }) := by
  simp only [stepOk, if_pos hcl]

theorem stepOk_open_general (cfg : ℚ) (s : AggState) (v t : ℚ)
    (hcl : ¬ cfg ≤ t - s.interval_start_time) :
    stepOk cfg s v t
      = ({ s with
           last_counter := v
           cumulative_events := s.cumulative_events
             + (if v - s.last_counter < 0 then v else v - s.last_counter) }, none) := by
  simp only [stepOk, if_neg hcl]

theorem chain_snoc {α : Type} {r : α → α → Prop} :
    ∀ (l : List α) (a b : α), List.Chain r a (l ++ [b]) → List.Chain r a l ∧ r (l.getLastD a) b
  | [], a, b, h => by
      have hab : r a b := by simpa using h
      exact ⟨List.Chain.nil, by simpa using hab⟩
  | c :: l, a, b, h => by
      rcases List.chain_cons.mp h with ⟨hac, h2⟩
      obtain ⟨h3, h4⟩ := chain_snoc l c b h2
      refine ⟨List.chain_cons.mpr ⟨hac, h3⟩, ?_⟩
      rw [List.getLastD_cons]
      exact h4

theorem stepOk_cumulative_le (cfg : ℚ) (s : AggState) (v t : ℚ) (hv : 0 ≤ v) :
    s.cumulative_events ≤ (stepOk cfg s v t).1.cumulative_events := by
  by_cases hcl : cfg ≤ t - s.interval_start_time
  · rw [stepOk_close_general cfg s v t hcl]
    split_ifs <;> simp <;> linarith
  · rw [stepOk_open_general cfg s v t hcl]
    split_ifs <;> simp <;> linarith

theorem runTicks_cumulative_le (cfg : ℚ) :
    ∀ (tks : List Tick) (s : AggState), (∀ v ∈ okValues tks, 0 ≤ v) →
      s.cumulative_events ≤ (runTicks cfg s tks).1.cumulative_events := by
  intro tks
  induction tks with
  | nil => intro s _; simp [runTicks]
  | cons tk tks ih =>
    intro s h
    rw [runTicks_cons]
    cases tk with
    | fail =>
      have h2 : ∀ v ∈ okValues tks, 0 ≤ v := by
        intro v hv; exact h v (by simpa [okValues] using hv)
      simpa [stepTick] using ih s h2
    | ok v t =>
      have hv : 0 ≤ v := h v (by simp [okValues])
      have h2 : ∀ w ∈ okValues tks, 0 ≤ w := by
        intro w hw; exact h w (by simp [okValues, hw])
      calc s.cumulative_events
          ≤ (stepOk cfg s v t).1.cumulative_events := stepOk_cumulative_le cfg s v t hv
        _ ≤ _ := by simpa [stepTick] using ih (stepOk cfg s v t).1 h2

theorem runTicks_indices (cfg : ℚ) :
    ∀ (tks : List Tick) (s : AggState),
      (runTicks cfg s tks).1.interval_count = s.interval_count + (runTicks cfg s tks).2.length
      ∧ (runTicks cfg s tks).2.map Row.index
          = List.range' (s.interval_count + 1) (runTicks cfg s tks).2.length := by
  intro tks
  induction tks with
  | nil => intro s; simp [runTicks]
  | cons tk tks ih =>
    intro s
    rw [runTicks_cons]
    cases tk with
    | fail => simpa [stepTick] using ih s
    | ok v t =>
      by_cases hcl : cfg ≤ t - s.interval_start_time
      · simp only [stepTick, stepOk_close_general cfg s v t hcl]
        obtain ⟨ih1, ih2⟩ := ih
          { last_counter := v, interval_start_counter := v,
            cumulative_events := s.cumulative_events
              + (if v - s.last_counter < 0 then v else v - s.last_counter),
            interval_count := s.interval_count + 1, interval_start_time := t }
        dsimp only at ih1 ih2 ⊢
        simp only [Option.toList_some, List.singleton_append, List.length_cons, List.map_cons]
        rw [ih1, ih2, List.range'_succ]
        exact ⟨by omega, rfl⟩
      · simp only [stepTick, stepOk_open_general cfg s v t hcl]
        simpa using ih { s with
          last_counter := v
          cumulative_events := s.cumulative_events
            + (if v - s.last_counter < 0 then v else v - s.last_counter) }


theorem foldl_writerow (rows : List Row) : ∀ acc : List CsvLine,
    rows.foldl (fun f r => writerow f (CsvLine.data r)) acc = acc ++ rows.map CsvLine.data := by
  induction rows with
  | nil => intro acc; simp
  | cons r rows ih =>
    intro acc
    rw [List.foldl_cons, ih]
    simp [writerow]

/-- Claim C1, counterexample: for the run with window length 2, seed reading 0
at time 0, successful readings 100 at time 1 and 30 at time 2 (a counter
reset), and shutdown read 30 at time 3, the single CSV row has Events cell 30
but Cumulative Events cell 130 (the rollover substitution contributed 30 to
the cumulative total on top of the 100 already counted, while the window
event count is only 30), so the sum of the Events cells does not equal the
final Cumulative Events cell. -/
theorem c1_counterexample :
    ¬ (((runMain 2 0 0 [Tick.ok 100 1, Tick.ok 30 2] (some 30) 3).2.map eventsCell).sum
       = ((runMain 2 0 0 [Tick.ok 100 1, Tick.ok 30 2] (some 30) 3).2.map cumCell).getLastD 0) := by
  norm_num [runMain, runTicks, stepTick, stepOk, finalizeStep, initState,
    eventsCell, cumCell, pyInt]

/-- Claim C1, amended: when no counter reset occurs (the seed and the
successful readings are non-decreasing) and the shutdown reading equals the
last successful loop reading (the seed when there is none), the sum of the
`events` values of all rows written to the CSV equals the final
`cumulative_events` of the aggregation state. -/
theorem c1_amended (cfg v0 t0 tFin : ℚ) (tks : List Tick) (vf : ℚ)
    (hmono : List.Chain (fun a b => a ≤ b) v0 (okValues tks))
    (hvf : vf = (okValues tks).getLastD v0) :
    ((runMain cfg v0 t0 tks (some vf) tFin).2.map Row.events).sum
      = (runMain cfg v0 t0 tks (some vf) tFin).1.cumulative_events := by
  obtain ⟨h1, h2, h3, h4⟩ := runTicks_inv cfg tks (initState v0 t0)
      (by simpa [initState] using hmono) (by simp [initState])
  rw [runMain_eq]
  have hi1 : (initState v0 t0).last_counter = v0 := rfl
  have hi2 : (initState v0 t0).interval_start_counter = v0 := rfl
  have hi3 : (initState v0 t0).cumulative_events = 0 := rfl
  rw [hi1] at h2 h4
  rw [hi2] at h1
  rw [hi3] at h2
  have hvf2 : vf = (runTicks cfg (initState v0 t0) tks).1.last_counter := by rw [hvf, h4]
  by_cases hpos : 0 < vf - (runTicks cfg (initState v0 t0) tks).1.interval_start_counter
  · rw [finalizeStep_pos _ _ _ hpos]
    dsimp only
    rw [List.map_append, List.sum_append]
    simp only [Option.toList_some, List.map_cons, List.map_nil, List.sum_cons, List.sum_nil]
    rw [h1, h2]
    rw [hvf2]
    ring
  · rw [finalizeStep_nonpos _ _ _ hpos]
    dsimp only
    simp only [Option.toList_none, List.append_nil]
    have h0 : vf = (runTicks cfg (initState v0 t0) tks).1.interval_start_counter := by
      have hle : vf ≤ (runTicks cfg (initState v0 t0) tks).1.interval_start_counter := by
        linarith
      have hge : (runTicks cfg (initState v0 t0) tks).1.interval_start_counter ≤ vf := by
        rw [hvf2]; exact h3
      linarith
    rw [h1, h2, ← hvf2, ← h0]
    ring

/-- Claim C2: on a successful reading `v` with `v - last_counter < 0` the
aggregator substitutes the raw value `v` as the per-sample delta (the
cumulative total grows by `v`, and `last_counter` becomes `v`); and when the
window closes with `v - interval_start_counter < 0` the emitted row's events
value is likewise the raw value `v`.  In particular, for consecutive
readings 100 then 30 the contributed delta is 30, not -70. -/
theorem c2_rollover (cfg : ℚ) (s : AggState) (v t : ℚ) :
    (v - s.last_counter < 0 →
      (stepOk cfg s v t).1.cumulative_events = s.cumulative_events + v
      ∧ (stepOk cfg s v t).1.last_counter = v)
    ∧ (cfg ≤ t - s.interval_start_time → v - s.interval_start_counter < 0 →
        (stepOk cfg s v t).2.map Row.events = some v) := by
  constructor
  · intro h
    by_cases hcl : cfg ≤ t - s.interval_start_time
    · rw [stepOk_close_general cfg s v t hcl]
      dsimp only
      rw [if_pos h]
      exact ⟨rfl, rfl⟩
    · rw [stepOk_open_general cfg s v t hcl]
      dsimp only
      rw [if_pos h]
      exact ⟨rfl, rfl⟩
  · intro hcl h
    rw [stepOk_close_general cfg s v t hcl]
    dsimp only
    rw [if_pos h]
    rfl

/-- Claim C2 witness: with window length 1, aggregation state after a first
reading of 100 (window opened at value 50 and time 0), the reading 30 at
time 1 contributes delta 30 (cumulative 100 becomes 130) and the closing
window's row carries events 30. -/
theorem c2_rollover_witness :
    ((stepOk 1 ⟨100, 50, 100, 0, 0⟩ 30 1).1.cumulative_events = 100 + 30
      ∧ (stepOk 1 ⟨100, 50, 100, 0, 0⟩ 30 1).1.last_counter = 30)
    ∧ (stepOk 1 ⟨100, 50, 100, 0, 0⟩ 30 1).2.map Row.events = some 30 :=
  ⟨(c2_rollover 1 ⟨100, 50, 100, 0, 0⟩ 30 1).1 (by norm_num),
   (c2_rollover 1 ⟨100, 50, 100, 0, 0⟩ 30 1).2 (by norm_num) (by norm_num)⟩

/-- Claim C3: for a strictly increasing counter sequence (seed, loop
readings, and the shutdown reading), the sum of the events values of all
emitted rows — the trailing partial interval included — equals the final
value minus the seed value. -/
theorem c3_sum_strictly_increasing (cfg v0 t0 tFin : ℚ) (tks : List Tick) (vf : ℚ)
    (hmono : List.Chain (fun a b => a < b) v0 (okValues tks ++ [vf])) :
    ((runMain cfg v0 t0 tks (some vf) tFin).2.map Row.events).sum = vf - v0 := by
  obtain ⟨hc, hlt⟩ := chain_snoc (okValues tks) v0 vf hmono
  have hle : List.Chain (fun a b => a ≤ b) v0 (okValues tks) :=
    List.Chain.imp (fun a b h => le_of_lt h) hc
  obtain ⟨h1, h2, h3, h4⟩ := runTicks_inv cfg tks (initState v0 t0)
      (by simpa [initState] using hle) (by simp [initState])
  rw [runMain_eq]
  have hi2 : (initState v0 t0).interval_start_counter = v0 := rfl
  rw [hi2] at h1
  have hlast : (runTicks cfg (initState v0 t0) tks).1.last_counter
      = (okValues tks).getLastD v0 := h4
  have hpos : 0 < vf - (runTicks cfg (initState v0 t0) tks).1.interval_start_counter := by
    have hv : (runTicks cfg (initState v0 t0) tks).1.last_counter < vf := by
      rw [hlast]; exact hlt
    linarith
  rw [finalizeStep_pos _ _ _ hpos]
  dsimp only
  rw [List.map_append, List.sum_append]
  simp only [Option.toList_some, List.map_cons, List.map_nil, List.sum_cons, List.sum_nil]
  rw [h1]
  ring

/-- Claim C3 witness: the spec's end-to-end scenario, readings 0, 5, 12, 20
at times 0, 20, 40, 65 with window length 60 and shutdown read 25: the rows'
events values sum to 25 - 0. -/
theorem c3_witness :
    ((runMain 60 0 0 [Tick.ok 5 20, Tick.ok 12 40, Tick.ok 20 65] (some 25) 70).2.map
      Row.events).sum = 25 - 0 :=
  c3_sum_strictly_increasing 60 0 0 70 [Tick.ok 5 20, Tick.ok 12 40, Tick.ok 20 65] 25
    (by norm_num [okValues, List.chain_cons])


/-- Claim C1 amended, witness: seed 0, readings 5 then 9 (the second closing
the 2-second window), shutdown read 9: the rows' events values sum to the
final cumulative total. -/
theorem c1_amended_witness :
    ((runMain 2 0 0 [Tick.ok 5 1, Tick.ok 9 2] (some 9) 3).2.map Row.events).sum
      = (runMain 2 0 0 [Tick.ok 5 1, Tick.ok 9 2] (some 9) 3).1.cumulative_events :=
  c1_amended 2 0 0 3 [Tick.ok 5 1, Tick.ok 9 2] 9
    (by norm_num [okValues, List.chain_cons]) (by simp [okValues])

/-- Claim C4, counterexample: `read_counter_value` returns the same
undifferentiated value `None` for a query timeout, an empty response and an
unparsable response — the three failure reasons are not distinguished in the
returned value. -/
theorem c4_counterexample :
    read_counter_value RecvOutcome.timeout = none
    ∧ read_counter_value (RecvOutcome.resp []) = none
    ∧ read_counter_value (RecvOutcome.resp ['x']) = none
    ∧ read_counter_value RecvOutcome.timeout = read_counter_value (RecvOutcome.resp []) :=
  ⟨rfl, by decide, by decide, by decide⟩

/-- Claim C4, amended: on every failing outcome — timeout, connection error,
empty (all-whitespace) response, response containing `ERROR`, or a first
field that does not parse as a float — the sampler returns the single
undifferentiated failure value `None`; it raises nothing (it is a total
function: every outcome yields `none` or some parsed value). -/
theorem c4_amended :
    read_counter_value RecvOutcome.timeout = none
    ∧ read_counter_value RecvOutcome.connError = none
    ∧ (∀ raw, pyStrip raw = [] → read_counter_value (RecvOutcome.resp raw) = none)
    ∧ (∀ raw, containsSeq upperERROR ((pyStrip raw).map Char.toUpper) = true →
        read_counter_value (RecvOutcome.resp raw) = none)
    ∧ (∀ raw, pyFloat ((pyStrip raw).takeWhile (fun c => c ≠ ',')) = none →
        read_counter_value (RecvOutcome.resp raw) = none)
    ∧ ∀ o, read_counter_value o = none ∨ ∃ q, read_counter_value o = some q := by
  refine ⟨rfl, rfl, ?_, ?_, ?_, ?_⟩
  · intro raw h
    simp [read_counter_value, query, h]
  · intro raw h
    simp [read_counter_value, query, h]
  · intro raw h
    simp only [read_counter_value, query]
    split_ifs with hc
    · exact h
    · rfl
  · intro o
    cases ho : read_counter_value o with
    | none => exact Or.inl rfl
    | some q => exact Or.inr ⟨q, rfl⟩

/-- Claim C4 amended, witness: a whitespace-only response, an `ERROR`
response and a non-numeric response each yield `none`. -/
theorem c4_amended_witness :
    read_counter_value (RecvOutcome.resp [' ']) = none
    ∧ read_counter_value (RecvOutcome.resp ['E', 'R', 'R', 'O', 'R']) = none
    ∧ read_counter_value (RecvOutcome.resp ['a', 'b']) = none :=
  ⟨c4_amended.2.2.1 [' '] (by decide),
   c4_amended.2.2.2.1 ['E', 'R', 'R', 'O', 'R'] (by decide),
   c4_amended.2.2.2.2.1 ['a', 'b'] (by decide)⟩

/-- Claim C5: given a successful shutdown read `v` at time `t`, finalization
emits a trailing row if and only if `v - interval_start_counter > 0`; the
emitted row uses the elapsed time since the last window reset
(`t - interval_start_time`, via the rate) and the current counter value, and
`runMain` appends it to the recorded rows after all loop rows (the
finalization step occurs once, at the end of the run). -/
theorem c5_finalization (s : AggState) (v t : ℚ) :
    ((finalizeStep s (some v) t).2 ≠ none ↔ 0 < v - s.interval_start_counter)
    ∧ (0 < v - s.interval_start_counter →
        (finalizeStep s (some v) t).2
          = some { index := s.interval_count + 1, startTime := s.interval_start_time,
                   endTime := t, events := v - s.interval_start_counter,
                   rate := if 0 < t - s.interval_start_time
                     then (v - s.interval_start_counter) / (t - s.interval_start_time) else 0,
                   cumulative := s.cumulative_events })
    ∧ ∀ (cfg v0 t0 : ℚ) (tks : List Tick),
        (runMain cfg v0 t0 tks (some v) t).2
          = (runTicks cfg (initState v0 t0) tks).2
            ++ (finalizeStep (runTicks cfg (initState v0 t0) tks).1 (some v) t).2.toList := by
  refine ⟨⟨?_, ?_⟩, ?_, fun cfg v0 t0 tks => rfl⟩
  · intro hne
    by_contra hpos
    rw [finalizeStep_nonpos s v t hpos] at hne
    exact hne rfl
  · intro hpos
    rw [finalizeStep_pos s v t hpos]
    simp
  · intro hpos
    rw [finalizeStep_pos s v t hpos]

/-- Claim C5 witness: state with `interval_start_counter = 2`, window opened
at time 0, cumulative 10, three intervals logged; shutdown read 7 at time 4
emits the row with index 4, events 5 and rate 5/4. -/
theorem c5_finalization_witness :
    (finalizeStep ⟨5, 2, 10, 3, 0⟩ (some 7) 4).2
      = some { index := 4, startTime := 0, endTime := 4, events := 5,
               rate := 5 / 4, cumulative := 10 } := by
  have h := (c5_finalization ⟨5, 2, 10, 3, 0⟩ 7 4).2.1 (by norm_num)
  rw [h]
  norm_num

/-- Claim C6: a failed counter read leaves the aggregation state exactly as
it was — `last_counter`, `interval_start_counter`, `interval_start_time`,
`cumulative_events` and `interval_count` all keep their prior values — and
writes no row; the loop proceeds to the next tick.  This holds for every
outcome on which the sampler returns `None` (timeout, connection error,
empty, `ERROR` or unparsable response). -/
theorem c6_failed_read (cfg : ℚ) (s : AggState) :
    stepTick cfg s Tick.fail = (s, none)
    ∧ ∀ (o : RecvOutcome) (t : ℚ), read_counter_value o = none →
        stepTick cfg s (tickOfOutcome o t) = (s, none) := by
  refine ⟨rfl, ?_⟩
  intro o t h
  simp [tickOfOutcome, h, stepTick]

/-- Claim C6 witness: a timed-out read at time 5 leaves the seed state
untouched and writes nothing. -/
theorem c6_failed_read_witness :
    stepTick 1 ⟨0, 0, 0, 0, 0⟩ (tickOfOutcome RecvOutcome.timeout 5) = (⟨0, 0, 0, 0, 0⟩, none) :=
  (c6_failed_read 1 ⟨0, 0, 0, 0, 0⟩).2 RecvOutcome.timeout 5 rfl

/-- Claim C7: with non-negative counter readings the cumulative total never
decreases: every per-sample update (the rollover substitution branch
included) adds a non-negative delta, and over any tick sequence the final
cumulative total is at least the starting one. -/
theorem c7_cumulative_nondecreasing (cfg : ℚ) (s : AggState) :
    (∀ v t : ℚ, 0 ≤ v → s.cumulative_events ≤ (stepOk cfg s v t).1.cumulative_events)
    ∧ ∀ tks : List Tick, (∀ v ∈ okValues tks, 0 ≤ v) →
        s.cumulative_events ≤ (runTicks cfg s tks).1.cumulative_events :=
  ⟨fun v t hv => stepOk_cumulative_le cfg s v t hv,
   fun tks h => runTicks_cumulative_le cfg tks s h⟩

/-- Claim C7 witness: from the seed state, the readings 2 then 30 with one
failed read in between leave the cumulative total at least its initial 0. -/
theorem c7_witness :
    (⟨0, 0, 0, 0, 0⟩ : AggState).cumulative_events
      ≤ (runTicks 1 ⟨0, 0, 0, 0, 0⟩ [Tick.ok 2 1, Tick.fail, Tick.ok 30 2]).1.cumulative_events :=
  (c7_cumulative_nondecreasing 1 ⟨0, 0, 0, 0, 0⟩).2 [Tick.ok 2 1, Tick.fail, Tick.ok 30 2]
    (by norm_num [okValues])

/-- Claim C8: the data rows of a whole run carry indices 1, 2, 3, ... in
writing order: the map of `index` over the rows, loop rows and the optional
trailing finalization row alike, is exactly the range starting at 1 of the
row count — indices are strictly increasing from 1 and the k-th row written
has index k. -/
theorem c8_indices (cfg v0 t0 tFin : ℚ) (tks : List Tick) (fr : Option ℚ) :
    (runMain cfg v0 t0 tks fr tFin).2.map Row.index
      = List.range' 1 (runMain cfg v0 t0 tks fr tFin).2.length := by
  rw [runMain_eq]
  obtain ⟨hc, hm⟩ := runTicks_indices cfg tks (initState v0 t0)
  have hc0 : (initState v0 t0).interval_count = 0 := rfl
  rw [hc0] at hc hm
  match fr with
  | none =>
    rw [finalizeStep_none]
    simpa using hm
  | some v =>
    by_cases hpos : 0 < v - (runTicks cfg (initState v0 t0) tks).1.interval_start_counter
    · rw [finalizeStep_pos _ _ _ hpos]
      dsimp only
      simp only [Option.toList_some, List.map_append, List.map_cons, List.map_nil,
        List.length_append, List.length_cons, List.length_nil]
      rw [hm, hc, List.range'_concat]
      simp [Nat.add_comm]
    · rw [finalizeStep_nonpos _ _ _ hpos]
      simpa using hm

/-- Claim C9: opening the output in mode `w` discards whatever the file held
before, and the produced file is exactly the header row followed by the data
rows in order — the header appears exactly once, before any data row,
whatever the prior contents were. -/
theorem c9_truncate_and_header (prior : List CsvLine) (rows : List Row) :
    csvOutput prior rows = CsvLine.header :: rows.map CsvLine.data
    ∧ (csvOutput prior rows).countP isHeaderLine = 1 := by
  have h : csvOutput prior rows = CsvLine.header :: rows.map CsvLine.data := by
    rw [csvOutput, foldl_writerow]
    rfl
  refine ⟨h, ?_⟩
  rw [h]
  simp [List.countP_cons, isHeaderLine, List.countP_eq_zero, List.mem_map]

/-- Claim C10: if the extra counter read at shutdown fails, finalization
changes nothing: the state (its `interval_count` included) is unchanged, no
trailing row is written, and the run's recorded rows are exactly the loop
rows. -/
theorem c10_failed_final_read (cfg v0 t0 tFin : ℚ) (tks : List Tick) (s : AggState) (t : ℚ) :
    finalizeStep s none t = (s, none)
    ∧ (runMain cfg v0 t0 tks none tFin).1 = (runTicks cfg (initState v0 t0) tks).1
    ∧ (runMain cfg v0 t0 tks none tFin).2 = (runTicks cfg (initState v0 t0) tks).2 := by
  refine ⟨rfl, rfl, ?_⟩
  rw [runMain_eq, finalizeStep_none]
  simp

end CounterScript
